import Mathlib

/-!
Verification of the self-healing web-automation core.

Shallow embedding of the repository's core modules:
* `src/healing/healing_strategies.py` — `HealingStrategies.try_alternatives`
* `src/healing/locator_manager.py` — `LocatorManager` (registry and healing)
* `src/actions/base_action.py` — `BaseAction.perform` (retry loop)
* `src/generators/recorder.py` — `Recorder`

A Python page probe (`page.query_selector`) either raises or returns a
value whose truthiness says whether an element was found; it is modelled
as a function into `Except ε Bool`.  Side effects (sleeps, action
invocations) are modelled as explicit event traces.
-/

section Healing

variable {α : Type} {ε : Type}

/-- Truthiness of one probe outcome: a found element (`Except.ok true`);
a raised exception or a `None` result both count as not found. -/
def isHit : Except ε Bool → Bool
  | Except.ok true => true
  | _ => false

/-- `HealingStrategies.try_alternatives` (src/healing/healing_strategies.py):
iterate the alternatives in order; return a selector whose probe reports an
element; an exception from the probe falls through to the next candidate
(the `except Exception: continue` branch); return `None` when exhausted. -/
def try_alternatives (probe : α → Except ε Bool) : List α → Option α
  | [] => none
  | s :: rest =>
    match probe s with
    | Except.ok true => some s
    | Except.ok false => try_alternatives probe rest
    | Except.error _ => try_alternatives probe rest

/-- Same loop, also returning the ordered list of candidates on which the
probe was invoked (the probe-call trace of one `try_alternatives` call). -/
def try_alternatives_trace (probe : α → Except ε Bool) :
    List α → Option α × List α
  | [] => (none, [])
  | s :: rest =>
    match probe s with
    | Except.ok true => (some s, [s])
    | Except.ok false =>
      let r := try_alternatives_trace probe rest
      (r.1, s :: r.2)
    | Except.error _ =>
      let r := try_alternatives_trace probe rest
      (r.1, s :: r.2)

/-- A probe with every raised error replaced by a "not found" report. -/
def absorbErrors (probe : α → Except ε Bool) : α → Except ε Bool :=
  fun c =>
    match probe c with
    | Except.error _ => Except.ok false
    | r => r

theorem try_alternatives_trace_fst (probe : α → Except ε Bool)
    (alts : List α) :
    (try_alternatives_trace probe alts).1 = try_alternatives probe alts := by
  induction alts with
  | nil => rfl
  | cons a rest ih =>
    simp only [try_alternatives_trace, try_alternatives]
    cases h : probe a with
    | ok b => cases b <;> simp [ih]
    | error e => simp [ih]

theorem try_alternatives_eq_find (probe : α → Except ε Bool)
    (alts : List α) :
    try_alternatives probe alts = alts.find? (fun c => isHit (probe c)) := by
  induction alts with
  | nil => rfl
  | cons a rest ih =>
    simp only [try_alternatives]
    cases h : probe a with
    | ok b =>
      cases b
      · rw [List.find?_cons_of_neg, ih]
        simp [isHit, h]
      · rw [List.find?_cons_of_pos]
        simp [isHit, h]
    | error e =>
      rw [List.find?_cons_of_neg, ih]
      simp [isHit, h]

theorem try_alternatives_trace_snd (probe : α → Except ε Bool)
    (alts : List α) :
    (try_alternatives_trace probe alts).2 =
      alts.take (alts.findIdx (fun c => isHit (probe c)) + 1) := by
  induction alts with
  | nil => rfl
  | cons a rest ih =>
    simp only [try_alternatives_trace]
    cases h : probe a with
    | ok b =>
      cases b
      · rw [List.findIdx_cons]
        simp [isHit, h, ih]
      · rw [List.findIdx_cons]
        simp [isHit, h]
    | error e =>
      rw [List.findIdx_cons]
      simp [isHit, h, ih]

/-- Claim C1: for every probe capability and candidate sequence,
`try_alternatives` returns the first candidate whose probe reports
existence (`List.find?` of the hit predicate); the probe-call trace is
exactly the prefix of the candidate sequence up to and including the
winning candidate (`List.take` of the winning index plus one), so the
probe is invoked at most `i` times for a winner at 1-based position `i`,
no candidate position is ever probed twice and no candidate beyond the
winner is probed; when the sequence is exhausted the whole sequence was
probed once each and the result is absent; on the empty sequence the
result is absent and the probe-call trace is empty. -/
theorem C1_try_alternatives_first_success (probe : α → Except ε Bool)
    (alts : List α) :
    try_alternatives probe alts = alts.find? (fun c => isHit (probe c))
    ∧ (try_alternatives_trace probe alts).1 = try_alternatives probe alts
    ∧ (try_alternatives_trace probe alts).2 =
        alts.take (alts.findIdx (fun c => isHit (probe c)) + 1)
    ∧ try_alternatives probe ([] : List α) = none
    ∧ (try_alternatives_trace probe ([] : List α)).2 = [] :=
  ⟨try_alternatives_eq_find probe alts,
   try_alternatives_trace_fst probe alts,
   try_alternatives_trace_snd probe alts, rfl, rfl⟩

/-- Claim C5: a probe error is treated exactly like "does not exist": the
scan over the alternatives is unchanged if every raised error is replaced
by a "not found" report, no error reaches the caller (the result type
carries no error), and a candidate whose probe raises is simply skipped,
the scan continuing with the rest of the sequence, so a later successful
candidate is still returned. -/
theorem C5_probe_errors_skipped (probe : α → Except ε Bool)
    (alts : List α) :
    try_alternatives probe alts = try_alternatives (absorbErrors probe) alts
    ∧ (∀ (c : α) (rest : List α) (e : ε), probe c = Except.error e →
        try_alternatives probe (c :: rest) = try_alternatives probe rest) := by
  constructor
  · induction alts with
    | nil => rfl
    | cons a rest ih =>
      simp only [try_alternatives]
      cases h : probe a with
      | ok b => cases b <;> simp [absorbErrors, h, ih]
      | error e => simp [absorbErrors, h, ih]
  · intro c rest e h
    simp [try_alternatives, h]

/-- A concrete probe: raises on `"a"`, reports existence on anything else. -/
def probeRaisingOnA : String → Except String Bool :=
  fun s => if s = "a" then Except.error "probe failed" else Except.ok true

theorem C5_witness :
    try_alternatives probeRaisingOnA ["a", "b"] = some "b" := by
  have h := (C5_probe_errors_skipped probeRaisingOnA ["a", "b"]).2
    "a" ["b"] "probe failed" (by rfl)
  rw [h]
  rfl

end Healing

section Registry

/-- The `LocatorManager.locators` dictionary (src/healing/locator_manager.py):
a name-to-selector mapping, modelled extensionally; `none` is a missing key. -/
def Registry : Type := String → Option String

/-- `LocatorManager.get_selector`: `self.locators.get(name)` — the mapped
selector, or `None` when the name is absent. -/
def get_selector (reg : Registry) (name : String) : Option String :=
  reg name

/-- `LocatorManager.update_selector`: `self.locators[name] = selector` —
unconditional overwrite of the entry for `name`. -/
def update_selector (reg : Registry) (name : String) ( selector : String) :
    Registry :=
  fun n => if n = name then some selector else reg n

/-- `LocatorManager._is_valid`: the placeholder validation that accepts
every selector unconditionally. -/
def is_valid ( selector : String) : Bool :=
  true

/-- `LocatorManager.heal_selector`: walk the alternatives in order; on the
first one `_is_valid` accepts, store it via `update_selector` and return
it; return `None` when the list is exhausted.  Returns the result paired
with the updated registry. -/
def heal_selector (reg : Registry) (name : String)
    (alternatives : List String) : Option String × Registry :=
  match alternatives with
  | [] => (none, reg)
  | alt :: rest =>
    if is_valid alt then (some alt, update_selector reg name alt)
    else heal_selector reg name rest

/-- Claim C6: the registry round-trip law — `set` then `get` on the same
target returns the just-set selector; `set` overwrites unconditionally, so
setting `s` and then `s2` is observationally identical to setting `s2`
alone (last write wins, at most one entry per target); and `set` is
idempotent — setting the same value twice equals setting it once. -/
theorem C6_registry_roundtrip (reg : Registry) (n m s s2 : String) :
    get_selector (update_selector reg n s) n = some s
    ∧ get_selector (update_selector (update_selector reg n s) n s2) m =
        get_selector (update_selector reg n s2) m
    ∧ update_selector (update_selector reg n s) n s =
        update_selector reg n s := by
  refine ⟨by simp [get_selector, update_selector], ?_, ?_⟩
  · simp only [get_selector, update_selector]
    by_cases h : m = n <;> simp [h]
  · funext x
    simp only [update_selector]
    by_cases h : x = n <;> simp [h]

/-- Claim C7: when `heal_selector` exhausts its candidate list without any
candidate validating (with the source's `_is_valid` this is exactly the
empty-list case), it returns absent and the registry is returned unchanged
— the prior mapping, or its absence, for every target is exactly as
before the call. -/
theorem C7_heal_exhausted_unchanged (reg : Registry) (name : String)
    (alts : List String) (h : ∀ a ∈ alts, is_valid a = false) :
    heal_selector reg name alts = (none, reg) := by
  induction alts with
  | nil => rfl
  | cons a rest ih =>
    have ha : is_valid a = false := h a (List.mem_cons_self a rest)
    simp only [heal_selector, ha]
    exact ih fun x hx => h x (List.mem_cons_of_mem a hx)

theorem C7_witness :
    heal_selector (fun _ => none) "submit_button" [] =
      (none, fun _ => none) :=
  C7_heal_exhausted_unchanged (fun _ => none) "submit_button" [] (by simp)

/-- Claim C8: the placeholder validator `_is_valid` returns true for every
selector; consequently `heal_selector` on any non-empty alternatives list
returns the first alternative and persists it as the target's selector.
The embedded `heal_selector`, like the source method, takes no page or
probe capability at all, so no page capability is consulted. -/
theorem C8_placeholder_validation :
    (∀ s : String, is_valid s = true)
    ∧ (∀ (reg : Registry) (name a : String) (rest : List String),
        heal_selector reg name (a :: rest) =
          (some a, update_selector reg name a)) :=
  ⟨fun _ => rfl, fun _ _ _ _ => rfl⟩

/-- Claim C10: registry mutations are confined to the named target — for
any other target `m ≠ n`, both `update_selector n s` and
`heal_selector n alts` leave `get_selector m` unchanged. -/
theorem C10_mutation_frame (reg : Registry) (n m s : String)
    (alts : List String) (h : m ≠ n) :
    get_selector (update_selector reg n s) m = get_selector reg m
    ∧ get_selector (heal_selector reg n alts).2 m = get_selector reg m := by
  constructor
  · simp [get_selector, update_selector, h]
  · induction alts with
    | nil => rfl
    | cons a rest ih =>
      simp only [heal_selector, is_valid, if_true]
      simp [get_selector, update_selector, h]

theorem C10_witness :
    get_selector
      (update_selector (fun _ => none) "login_button" "#login") "other" =
        get_selector (fun _ => none) "other"
    ∧ get_selector
        ((heal_selector (fun _ => none) "login_button" ["#a"]).2) "other" =
          get_selector (fun _ => none) "other" :=
  C10_mutation_frame (fun _ => none) "login_button" "other" "#login" ["#a"]
    (by decide)

end Registry

section Executor

variable {ρ : Type}

/-- Observable side effects of one `BaseAction.perform` call: an invocation
of `self._perform` (the attempt with its 0-based index), a
`time.sleep(config.RETRY_DELAY)` suspension, or a healing invocation.  The
constructor `heal` exists so that absence of healing in the executor is
expressible; `perform` below never emits it. -/
inductive Ev where
  | attempt (idx : Nat) : Ev
  | sleep (delay : Nat) : Ev
  | heal : Ev
deriving DecidableEq

def isAttemptEv : Ev → Bool
  | Ev.attempt _ => true
  | _ => false

def isSleepEv : Ev → Bool
  | Ev.sleep _ => true
  | _ => false

def isHealEv : Ev → Bool
  | Ev.heal => true
  | _ => false

/-- The message of the exception raised on exhaustion:
`f"Action failed after {config.RETRY_COUNT} attempts."`. -/
def failMsg (k : Nat) : String :=
  "Action failed after " ++ toString k ++ " attempts."

/-- The retry loop body of `BaseAction.perform`
(src/actions/base_action.py): `for attempt in range(RETRY_COUNT)`, try the
action; on success return; on any exception sleep `RETRY_DELAY` and
continue.  `act i` is the outcome of `self._perform` on attempt `i`;
the returned list is the event trace; `none` means the loop fell through
with every attempt failed. -/
def performAux (act : Nat → Except String ρ) (delay : Nat) :
    Nat → Nat → Option ρ × List Ev
  | _, 0 => (none, [])
  | i, fuel + 1 =>
    match act i with
    | Except.ok r => (some r, [Ev.attempt i])
    | Except.error _ =>
      let rest := performAux act delay (i + 1) fuel
      (rest.1, Ev.attempt i :: Ev.sleep delay :: rest.2)

/-- `BaseAction.perform`: run the retry loop with `RETRY_COUNT = k` and
`RETRY_DELAY = delay`; when the loop falls through, raise
`Exception(failMsg k)`. -/
def perform (k delay : Nat) (act : Nat → Except String ρ) :
    Except String ρ × List Ev :=
  match performAux act delay 0 k with
  | (some r, tr) => (Except.ok r, tr)
  | (none, tr) => (Except.error (failMsg k), tr)

/-- An action that deterministically fails on every attempt. -/
def alwaysFail : Nat → Except String Unit :=
  fun _ => Except.error "boom"

theorem performAux_all_fail (act : Nat → Except String ρ) (delay : Nat)
    (h : ∀ j, ∃ e, act j = Except.error e) :
    ∀ (fuel i : Nat),
      performAux act delay i fuel =
        (none,
         List.flatten ((List.range fuel).map
           (fun j => [Ev.attempt (i + j), Ev.sleep delay]))) := by
  intro fuel
  induction fuel with
  | zero => intro i; rfl
  | succ n ih =>
    intro i
    obtain ⟨e, he⟩ := h i
    have hfun : ((fun j => [Ev.attempt (i + j), Ev.sleep delay]) ∘ Nat.succ)
        = fun j => [Ev.attempt (i + 1 + j), Ev.sleep delay] := by
      funext j
      have hj : i + Nat.succ j = i + 1 + j := by omega
      simp only [Function.comp_apply, hj]
    have harg : (List.range (n + 1)).map
          (fun j => [Ev.attempt (i + j), Ev.sleep delay])
        = [Ev.attempt i, Ev.sleep delay] ::
            (List.range n).map
              (fun j => [Ev.attempt (i + 1 + j), Ev.sleep delay]) := by
      rw [List.range_succ_eq_map, List.map_cons, List.map_map, hfun]
      simp
    simp only [performAux, he]
    rw [ih (i + 1), harg, List.flatten_cons]
    rfl

theorem count_flatten_blocks (p : Ev → Bool) (f : Nat → List Ev)
    (hf : ∀ j, List.countP p (f j) = 1) :
    ∀ k, List.countP p (List.flatten ((List.range k).map f)) = k := by
  intro k
  induction k with
  | zero => rfl
  | succ n ih =>
    rw [List.range_succ]
    simp [List.countP_append, ih, hf n]

/-- Claim C2 counterexample: with `maxAttempts = 1` and an action that
fails on its only attempt, the executor sleeps once — after the final
failed attempt — whereas the claim requires `k - 1 = 0` sleeps and no
wait after the final failed attempt.  The full trace is one attempt
followed by one sleep. -/
theorem C2_counterexample :
    (perform 1 5 alwaysFail).2 = [Ev.attempt 0, Ev.sleep 5]
    ∧ List.countP isSleepEv (perform 1 5 alwaysFail).2 = 1
    ∧ ¬ List.countP isSleepEv (perform 1 5 alwaysFail).2 = 1 - 1 := by
  refine ⟨rfl, rfl, ?_⟩
  intro h
  simp [perform, performAux, alwaysFail, List.countP, List.countP.go,
    isSleepEv] at h

/-- Claim C2 as amended: for every `maxAttempts = k` (including `k = 0`,
where the action is never executed) and an action that deterministically
fails on every attempt, `perform` invokes the action exactly `k` times and
suspends for the configured delay exactly `k` times, one suspension
immediately after each failed attempt — including after the final failed
attempt; the trace is exactly `attempt 0, sleep, attempt 1, sleep, …,
attempt (k-1), sleep`. -/
theorem C2_retry_attempts_and_sleeps (k delay : Nat)
    (act : Nat → Except String ρ)
    (h : ∀ j, ∃ e, act j = Except.error e) :
    (perform k delay act).2 =
      List.flatten ((List.range k).map
        (fun j => [Ev.attempt j, Ev.sleep delay]))
    ∧ List.countP isAttemptEv (perform k delay act).2 = k
    ∧ List.countP isSleepEv (perform k delay act).2 = k := by
  have htr : (perform k delay act).2 =
      List.flatten ((List.range k).map
        (fun j => [Ev.attempt j, Ev.sleep delay])) := by
    have := performAux_all_fail act delay h k 0
    simp only [Nat.zero_add] at this
    simp [perform, this]
  refine ⟨htr, ?_, ?_⟩
  · rw [htr]
    exact count_flatten_blocks isAttemptEv
      (fun j => [Ev.attempt j, Ev.sleep delay]) (fun j => rfl) k
  · rw [htr]
    exact count_flatten_blocks isSleepEv
      (fun j => [Ev.attempt j, Ev.sleep delay]) (fun j => rfl) k

theorem C2_witness :
    List.countP isAttemptEv (perform 2 0 alwaysFail).2 = 2
    ∧ List.countP isSleepEv (perform 2 0 alwaysFail).2 = 2 :=
  ⟨(C2_retry_attempts_and_sleeps 2 0 alwaysFail
      (fun _ => ⟨"boom", rfl⟩)).2.1,
   (C2_retry_attempts_and_sleeps 2 0 alwaysFail
      (fun _ => ⟨"boom", rfl⟩)).2.2⟩

/-- Claim C3: the event trace of `BaseAction.perform` never contains a
healing event, for any retry count, delay and action — the retry loop of
the source consists solely of attempts and sleeps and never invokes
`HealingStrategies` or `LocatorManager.heal_selector`, so no registry
update can occur between attempts. -/
theorem C3_perform_never_heals (k delay : Nat)
    (act : Nat → Except String ρ) :
    List.countP isHealEv (perform k delay act).2 = 0 := by
  have haux : ∀ (fuel i : Nat),
      List.countP isHealEv (performAux act delay i fuel).2 = 0 := by
    intro fuel
    induction fuel with
    | zero => intro i; rfl
    | succ n ih =>
      intro i
      cases h : act i with
      | ok r => simp [performAux, h, List.countP_cons, isHealEv]
      | error e =>
        simp [performAux, h, List.countP_cons, isHealEv, ih (i + 1)]
  cases hp : performAux act delay 0 k with
  | mk r tr =>
    have := haux k 0
    rw [hp] at this
    cases r <;> simpa [perform, hp] using this

/-- Claim C4: the only error `perform` can signal is the exhaustion
failure carrying the attempt budget (`failMsg k`, mentioning
`maxAttempts`); every per-attempt error is recovered inside the loop and
never surfaces.  When the action fails on every attempt the result is
exactly `Except.error (failMsg k)` and no partial result is returned. -/
theorem C4_only_exhaustion_propagates (k delay : Nat)
    (act : Nat → Except String ρ) :
    (∀ e, (perform k delay act).1 = Except.error e → e = failMsg k)
    ∧ ((∀ j, ∃ e, act j = Except.error e) →
        (perform k delay act).1 = Except.error (failMsg k)) := by
  constructor
  · intro e he
    unfold perform at he
    cases hp : performAux act delay 0 k with
    | mk r tr =>
      rw [hp] at he
      cases r with
      | none => simpa using he.symm
      | some v => simp at he
  · intro h
    have := performAux_all_fail act delay h k 0
    simp [perform, this]

theorem C4_witness :
    (perform 2 3 alwaysFail).1 = Except.error (failMsg 2) :=
  (C4_only_exhaustion_propagates 2 3 alwaysFail).2 (fun _ => ⟨"boom", rfl⟩)

end Executor

section Recording

/-- One entry of `Recorder.actions` (src/generators/recorder.py): the
dictionary `{'action': …, 'selector': …, 'value': …}`; `value` defaults to
`None` when omitted, modelled as `Option`. -/
structure RecordedAction where
  action : String
  selector : String
  value : Option String
deriving DecidableEq

/-- The `Recorder.actions` list, in insertion order. -/
abbrev Recorder : Type := List RecordedAction

/-- `Recorder.record_action`: append one entry to `self.actions`.  Total on
every input: any strings (including empty ones) and an omitted value
(`none`) are accepted, so recording never raises. -/
def record_action (r : Recorder) (action selector : String)
    (value : Option String) : Recorder :=
  r ++ [⟨action, selector, value⟩]

/-- `Recorder.export`: return `self.actions` — the full history. -/
def Recorder.export (r : Recorder) : List RecordedAction :=
  r

/-- Fold a sequence of `record_action` calls, each given as
`(action, selector, value)`, over a recorder. -/
def recordAll (r : Recorder) :
    List (String × String × Option String) → Recorder
  | [] => r
  | c :: rest => recordAll (record_action r c.1 c.2.1 c.2.2) rest

theorem recordAll_export (r : Recorder)
    (calls : List (String × String × Option String)) :
    Recorder.export (recordAll r calls) =
      Recorder.export r ++ calls.map (fun c => ⟨c.1, c.2.1, c.2.2⟩) := by
  induction calls generalizing r with
  | nil => simp [recordAll, Recorder.export]
  | cons c rest ih =>
    simp only [recordAll]
    rw [ih]
    simp [Recorder.export, record_action, List.append_assoc]

/-- Claim C9: after any sequence of `record_action` calls, `export`
returns every recorded entry in exactly the call order (the prior history
followed by the calls, mapped one-to-one to entries), so its length equals
the number of calls made so far; `record_action` is a total function —
defined on every action, selector and optional value, empty strings
included — so it never raises. -/
theorem C9_recorder_order_and_length (r : Recorder)
    (calls : List (String × String × Option String)) :
    Recorder.export (recordAll r calls) =
      Recorder.export r ++ calls.map (fun c => ⟨c.1, c.2.1, c.2.2⟩)
    ∧ (Recorder.export (recordAll r calls)).length =
        (Recorder.export r).length + calls.length
    ∧ (∀ (a s : String) (v : Option String),
        Recorder.export (record_action r a s v) =
          Recorder.export r ++ [⟨a, s, v⟩]) := by
  refine ⟨recordAll_export r calls, ?_, fun a s v => rfl⟩
  rw [recordAll_export r calls]
  simp

end Recording
